import Mathlib

/-!
Verification of the pattern-generation core of `tools/regexgen/main.go`:
TLD aggregation (`tldList`, the pseudo-TLD fold in `writeRegex`), the
byte-buffer join `reverseJoin`, and the assembly of the `webURL`, `email`
and `all` pattern strings.  Go strings are modelled as Lean `String`
(compared through their underlying character lists, matching Go's
byte-wise comparison of UTF-8 data), and the fixed character classes and
sub-patterns of the generated regular expression are modelled as decidable
languages over `List Char`.
-/

namespace Regexgen

/-- Go's string order (`sort.Strings` less), modelled as the lexicographic
order on the underlying character lists. -/
def goLe (a b : String) : Prop := a.data ≤ b.data

/-- Strict version of `goLe`: byte-wise lexicographically smaller. -/
def goLt (a b : String) : Prop := a.data < b.data

instance : DecidableRel goLe := fun a b => inferInstanceAs (Decidable (a.data ≤ b.data))

instance : DecidableRel goLt := fun a b => inferInstanceAs (Decidable (a.data < b.data))

instance : IsTotal String goLe := ⟨fun a b => le_total a.data b.data⟩

instance : IsTrans String goLe := ⟨fun _ _ _ hab hbc => le_trans hab hbc⟩

instance : IsAntisymm String goLe := ⟨fun _ _ hab hba => String.ext (le_antisymm hab hba)⟩

/-- `sort.Strings`: sorts a list of strings in ascending byte-wise
lexicographic order.  (Any sorted permutation is unique for a linear
order, so insertion sort is extensionally the Go sort.) -/
def sortStrings (l : List String) : List String := List.insertionSort goLe l

/-- The loop of `reverseJoin` (main.go lines 122-126): for `i` from the
given index down to `0`, append `sep` and then `a[i]` to the buffer. -/
def revJoinLoop (a : List String) (sep : String) : Nat → String
  | 0 => sep ++ a.getD 0 ""
  | i + 1 => (sep ++ a.getD (i + 1) "") ++ revJoinLoop a sep i

/-- Shallow embedding of `reverseJoin` (main.go lines 108-128): empty list
gives `""`, a singleton gives its element, otherwise the buffer starts
with the last element and the loop appends `sep + a[i]` for
`i = len(a)-2` down to `0`. -/
def reverseJoin (a : List String) (sep : String) : String :=
  match a with
  | [] => ""
  | [x] => x
  | x :: y :: rest =>
      (x :: y :: rest).getLastD "" ++ revJoinLoop (x :: y :: rest) sep ((x :: y :: rest).length - 2)

/-- The naive join of the spec: elements in order, separated by `sep`. -/
def joinSep (sep : String) : List String → String
  | [] => ""
  | [x] => x
  | x :: y :: rest => x ++ sep ++ joinSep sep (y :: rest)

theorem revJoinLoop_append (l : List String) (x sep : String) :
    ∀ i, i < l.length → revJoinLoop (l ++ [x]) sep i = revJoinLoop l sep i := by
  intro i
  induction i with
  | zero =>
      intro h
      simp only [revJoinLoop]
      rw [List.getD_append l [x] "" 0 h]
  | succ i ih =>
      intro h
      simp only [revJoinLoop]
      rw [List.getD_append l [x] "" (i + 1) h, ih (Nat.lt_of_succ_lt h)]

theorem revJoinLoop_reverse_top (sep : String) :
    ∀ b : List String, b ≠ [] →
      revJoinLoop b.reverse sep (b.length - 1) = sep ++ joinSep sep b := by
  intro b
  induction b with
  | nil => intro h; exact absurd rfl h
  | cons x bs ih =>
      intro _
      cases bs with
      | nil => simp [revJoinLoop, joinSep]
      | cons y bs' =>
          have hrev : (x :: y :: bs').reverse = (y :: bs').reverse ++ [x] :=
            List.reverse_cons x (y :: bs')
          have hlen : (x :: y :: bs').length - 1 = bs'.length + 1 := by
            simp
          have hlen' : (y :: bs').reverse.length = bs'.length + 1 := by
            simp
          rw [hrev, hlen, revJoinLoop]
          have hgetD : ((y :: bs').reverse ++ [x]).getD (bs'.length + 1) "" = x := by
            rw [List.getD_append_right (y :: bs').reverse [x] "" (bs'.length + 1) (by omega)]
            simp [hlen']
          rw [hgetD, revJoinLoop_append (y :: bs').reverse x sep bs'.length (by omega)]
          have htop : revJoinLoop (y :: bs').reverse sep bs'.length
              = sep ++ joinSep sep (y :: bs') := by
            have := ih (by simp)
            simpa using this
          rw [htop]
          show (sep ++ x) ++ (sep ++ joinSep sep (y :: bs'))
              = sep ++ joinSep sep (x :: y :: bs')
          simp only [joinSep, String.append_assoc]

theorem reverseJoin_spine (l : List String) (sep : String) (h : 2 ≤ l.length) :
    reverseJoin l sep = l.getLastD "" ++ revJoinLoop l sep (l.length - 2) := by
  cases l with
  | nil => simp at h
  | cons x t =>
      cases t with
      | nil => simp at h
      | cons y r => rfl

theorem reverseJoin_reverse_eq (sep : String) :
    ∀ b : List String, reverseJoin b.reverse sep = joinSep sep b := by
  intro b
  cases b with
  | nil => rfl
  | cons x bs =>
      cases bs with
      | nil => rfl
      | cons y bs' =>
          have hrev : (x :: y :: bs').reverse = (y :: bs').reverse ++ [x] :=
            List.reverse_cons x (y :: bs')
          have hlen2 : 2 ≤ ((y :: bs').reverse ++ [x]).length := by
            simp
          rw [hrev, reverseJoin_spine _ sep hlen2]
          have hlast : ((y :: bs').reverse ++ [x]).getLastD "" = x :=
            List.getLastD_concat "" x (y :: bs').reverse
          have hlen : ((y :: bs').reverse ++ [x]).length - 2 = bs'.length := by
            simp
          rw [hlast, hlen,
            revJoinLoop_append (y :: bs').reverse x sep bs'.length (by simp)]
          have htop : revJoinLoop (y :: bs').reverse sep bs'.length
              = sep ++ joinSep sep (y :: bs') := by
            have := revJoinLoop_reverse_top sep (y :: bs') (by simp)
            simpa using this
          rw [htop]
          show x ++ (sep ++ joinSep sep (y :: bs')) = joinSep sep (x :: y :: bs')
          simp only [joinSep, String.append_assoc]

theorem reverseJoin_eq_naive (a : List String) (sep : String) :
    reverseJoin a sep = joinSep sep a.reverse := by
  have := reverseJoin_reverse_eq sep a.reverse
  rwa [List.reverse_reverse] at this

/-- `tldList` (main.go lines 84-98): the two sources insert into one Go
map (dedup by exact string equality), the keys are collected and sorted.
The two map-filling passes are modelled by their extracted string lists. -/
def tldList (A B : List String) : List String := sortStrings ((A ++ B).dedup)

/-- The combined list built in `writeRegex` (main.go lines 140-147): the
aggregated TLD list, then the pseudo-TLDs appended, then sorted. -/
def allTlds (tlds pseudo : List String) : List String := sortStrings (tlds ++ pseudo)

/-- The full aggregation pipeline: `tldList` output fed through the
pseudo-TLD fold of `writeRegex`. -/
def aggregatedTlds (A B P : List String) : List String := allTlds (tldList A B) P

/-- The order in which TLD entries appear in the alternation built by
`reverseJoin` over the sorted combined list: reverse sorted order. -/
def tldEntries (tlds pseudo : List String) : List String := (allTlds tlds pseudo).reverse

theorem sortStrings_sorted (l : List String) : List.Sorted goLe (sortStrings l) :=
  List.sorted_insertionSort goLe l

theorem sortStrings_perm (l : List String) : (sortStrings l).Perm l :=
  List.perm_insertionSort goLe l

theorem tldList_sorted (A B : List String) : List.Sorted goLe (tldList A B) :=
  sortStrings_sorted ((A ++ B).dedup)

theorem tldList_nodup (A B : List String) : (tldList A B).Nodup :=
  (sortStrings_perm ((A ++ B).dedup)).nodup_iff.mpr (List.nodup_dedup (A ++ B))

theorem mem_tldList {x : String} {A B : List String} :
    x ∈ tldList A B ↔ x ∈ A ++ B := by
  unfold tldList
  rw [(sortStrings_perm ((A ++ B).dedup)).mem_iff, List.mem_dedup]

/-- A proper prefix is lexicographically strictly smaller. -/
theorem lex_lt_of_proper_pre :
    ∀ (x : List Char) (t : List Char), t ≠ [] → List.Lex (· < ·) x (x ++ t) := by
  intro x
  induction x with
  | nil =>
      intro t ht
      cases t with
      | nil => exact absurd rfl ht
      | cons c r => exact List.Lex.nil
  | cons a x' ih =>
      intro t ht
      exact List.Lex.cons (ih t ht)

theorem data_lt_of_pre {x y : String} (h : x.data <+: y.data) (hne : x ≠ y) :
    goLt x y := by
  obtain ⟨t, ht⟩ := h
  have htne : t ≠ [] := by
    intro h0
    apply hne
    apply String.ext
    rw [← ht, h0, List.append_nil]
  have : List.Lex (· < ·) x.data (x.data ++ t) := lex_lt_of_proper_pre x.data t htne
  rw [ht] at this
  exact this

/-- The `letters` constant (main.go line 131): ASCII letters plus the
Unicode ranges U+00A0-U+D7FF, U+F900-U+FDCF, U+FDF0-U+FFEF. -/
def letters : String := "a-zA-Z\u00A0-\uD7FF\uF900-\uFDCF\uFDF0-\uFFEF"

/-- The `iriChar` constant (main.go line 132): `letters` plus digits. -/
def iriChar : String := letters ++ "0-9"

/-- The `ipv4Addr` constant (main.go line 133). -/
def ipv4Addr : String := "((25[0-5]|2[0-4][0-9]|[0-1][0-9]\x7b2\x7d|[1-9][0-9]|[1-9])\\.(25[0-5]|2[0-4][0-9]|[0-1][0-9]\x7b2\x7d|[1-9][0-9]|[1-9]|0)\\.(25[0-5]|2[0-4][0-9]|[0-1][0-9]\x7b2\x7d|[1-9][0-9]|[1-9]|0)\\.(25[0-5]|2[0-4][0-9]|[0-1][0-9]\x7b2\x7d|[1-9][0-9]|[0-9]))"

/-- The `ipv6Addr` constant (main.go line 134). -/
def ipv6Addr : String := "(([0-9a-fA-F]\x7b1,4\x7d:)\x7b7,7\x7d[0-9a-fA-F]\x7b1,4\x7d|([0-9a-fA-F]\x7b1,4\x7d:)\x7b1,7\x7d:|([0-9a-fA-F]\x7b1,4\x7d:)\x7b1,6\x7d:[0-9a-fA-F]\x7b1,4\x7d|([0-9a-fA-F]\x7b1,4\x7d:)\x7b1,5\x7d(:[0-9a-fA-F]\x7b1,4\x7d)\x7b1,2\x7d|([0-9a-fA-F]\x7b1,4\x7d:)\x7b1,4\x7d(:[0-9a-fA-F]\x7b1,4\x7d)\x7b1,3\x7d|([0-9a-fA-F]\x7b1,4\x7d:)\x7b1,3\x7d(:[0-9a-fA-F]\x7b1,4\x7d)\x7b1,4\x7d|([0-9a-fA-F]\x7b1,4\x7d:)\x7b1,2\x7d(:[0-9a-fA-F]\x7b1,4\x7d)\x7b1,5\x7d|[0-9a-fA-F]\x7b1,4\x7d:((:[0-9a-fA-F]\x7b1,4\x7d)\x7b1,6\x7d)|:((:[0-9a-fA-F]\x7b1,4\x7d)\x7b1,7\x7d|:)|fe80:(:[0-9a-fA-F]\x7b0,4\x7d)\x7b0,4\x7d%[0-9a-zA-Z]\x7b1,\x7d|::(ffff(:0\x7b1,4\x7d)\x7b0,1\x7d:)\x7b0,1\x7d((25[0-5]|(2[0-4]|1\x7b0,1\x7d[0-9])\x7b0,1\x7d[0-9])\\.)\x7b3,3\x7d(25[0-5]|(2[0-4]|1\x7b0,1\x7d[0-9])\x7b0,1\x7d[0-9])|([0-9a-fA-F]\x7b1,4\x7d:)\x7b1,4\x7d:((25[0-5]|(2[0-4]|1\x7b0,1\x7d[0-9])\x7b0,1\x7d[0-9])\\.)\x7b3,3\x7d(25[0-5]|(2[0-4]|1\x7b0,1\x7d[0-9])\x7b0,1\x7d[0-9]))"

/-- The `ipAddr` constant (main.go line 135). -/
def ipAddr : String := "(" ++ ipv4Addr ++ "|" ++ ipv6Addr ++ ")"

/-- The `iri` constant (main.go line 136): the single-label sub-pattern. -/
def iri : String := "[" ++ iriChar ++ "]([" ++ iriChar ++ "\\-]\x7b0,61\x7d[" ++ iriChar ++ "])\x7b0,1\x7d"

/-- The `gtld` string (main.go line 149) built from the sorted combined
TLD list: case-insensitive group over the reverse join, switched off
right after the group. -/
def gtldOf (ts : List String) : String := "(?i)(" ++ reverseJoin ts "|" ++ ")(?-i)"

/-- The `hostName` string (main.go line 150). -/
def hostNameOf (ts : List String) : String := "(" ++ iri ++ "\\.)+" ++ gtldOf ts

/-- The `domainName` string (main.go line 151). -/
def domainNameOf (ts : List String) : String :=
  "(" ++ hostNameOf ts ++ "|" ++ ipAddr ++ "|localhost)"

/-- The fixed part of the `webURL` string before `domainName`
(main.go line 152). -/
def webURLHead : String := "((https?:\\/\\/(([a-zA-Z0-9\\$\\-\\_\\.\\+\\!\\*\\\x27\\(\\)\\,\\;\\?\\&\\=]|(\\%[a-fA-F0-9]\x7b2\x7d))\x7b1,64\x7d(\\:([a-zA-Z0-9\\$\\-\\_\\.\\+\\!\\*\\\x27\\(\\)\\,\\;\\?\\&\\=]|(\\%[a-fA-F0-9]\x7b2\x7d))\x7b1,25\x7d)?\\@)?)?("

/-- The fixed part of the `webURL` string between `domainName` and the
embedded `iriChar` class (main.go line 152). -/
def webURLMid : String := ")(\\:\\d\x7b1,5\x7d)?)(\\/((["

/-- The fixed tail of the `webURL` string after the embedded `iriChar`
class (main.go line 152). -/
def webURLTail : String := "\\;\\/\\?\\:\\@\\&\\=\\#\\~\\-\\.\\+\\!\\*\\\x27\\(\\)\\,\\_])|(\\%[a-fA-F0-9]\x7b2\x7d))*)?(\\b|$)"

/-- The `webURL` string (main.go line 152). -/
def webURLOf (ts : List String) : String :=
  webURLHead ++ domainNameOf ts ++ webURLMid ++ iriChar ++ webURLTail

/-- The `email` string (main.go line 153). -/
def emailOf (ts : List String) : String :=
  "[a-zA-Z0-9\\.\\_\\%\\-\\+]\x7b1,256\x7d\\@" ++ domainNameOf ts

/-- The three pattern strings handed to the serialization sink. -/
structure RegexOutputs where
  webURL : String
  email : String
  all : String

/-- The literal string passed as `All` (main.go line 165): the Go source
text of a concatenation referring to the emitted constants by name. -/
def allLiteral : String := "(\x60 + webURL + \x60|\x60 + email + \x60)"

/-- The pattern assembler: consumes the sorted combined TLD sequence and
produces the three strings handed to the sink (main.go lines 148-166). -/
def assembleFrom (ts : List String) : RegexOutputs :=
  { webURL := webURLOf ts, email := emailOf ts, all := allLiteral }

/-- The pure content of `writeRegex` (main.go lines 139-166): fold the
pseudo-TLDs into the aggregated list, sort, then assemble. -/
def writeRegexOutputs (tlds pseudo : List String) : RegexOutputs :=
  assembleFrom (allTlds tlds pseudo)

/-- Membership of a character in a regex range `lo-hi` (code points). -/
def charRange (lo hi : Nat) (c : Char) : Bool := decide (lo ≤ c.toNat ∧ c.toNat ≤ hi)

/-- The `letters` character class as a predicate: `a-z`, `A-Z`,
U+00A0-U+D7FF, U+F900-U+FDCF, U+FDF0-U+FFEF (main.go line 131). -/
def letterCls (c : Char) : Bool :=
  charRange 97 122 c || charRange 65 90 c || charRange 0xA0 0xD7FF c ||
    charRange 0xF900 0xFDCF c || charRange 0xFDF0 0xFFEF c

/-- The `iriChar` class as a predicate: `letters` plus `0-9`
(main.go line 132). -/
def iriCharCls (c : Char) : Bool := letterCls c || charRange 48 57 c

/-- The class `[iriChar\-]`: label characters including the hyphen. -/
def labelCls (c : Char) : Bool := iriCharCls c || c == '-'

/-- The language of the `iri` sub-pattern
`[iriChar]([iriChar\-]{0,61}[iriChar]){0,1}` (main.go line 136), read as
a full-string match: one `iriChar`, then optionally a group of up to 61
`[iriChar\-]` characters followed by exactly one `iriChar`. -/
def iriLang (s : List Char) : Prop :=
  ∃ c rest, s = c :: rest ∧ iriCharCls c = true ∧
    (rest = [] ∨ ∃ mid lastc, rest = mid ++ [lastc] ∧ mid.length ≤ 61 ∧
      (∀ d ∈ mid, labelCls d = true) ∧ iriCharCls lastc = true)

/-- The label language described by the claim's words: one character from
the letter-class, optionally up to 61 label-class characters, optionally
one more label-class character without hyphen. -/
def claimIriLang (s : List Char) : Prop :=
  ∃ c mid opt, s = c :: (mid ++ opt) ∧ letterCls c = true ∧ mid.length ≤ 61 ∧
    (∀ d ∈ mid, labelCls d = true) ∧
    (opt = [] ∨ ∃ lastc, opt = [lastc] ∧ iriCharCls lastc = true)

/-- Octet alternative `25[0-5]`. -/
def oct25x : List Char → Bool
  | [a, b, c] => a == '2' && b == '5' && charRange 48 53 c
  | _ => false

/-- Octet alternative `2[0-4][0-9]`. -/
def oct2xx : List Char → Bool
  | [a, b, c] => a == '2' && charRange 48 52 b && charRange 48 57 c
  | _ => false

/-- Octet alternative `[0-1][0-9]{2}`. -/
def oct01xx : List Char → Bool
  | [a, b, c] => charRange 48 49 a && charRange 48 57 b && charRange 48 57 c
  | _ => false

/-- Octet alternative `[1-9][0-9]`. -/
def octTens : List Char → Bool
  | [a, b] => charRange 49 57 a && charRange 48 57 b
  | _ => false

/-- Octet alternative `[1-9]`. -/
def octOnes : List Char → Bool
  | [a] => charRange 49 57 a
  | _ => false

/-- Octet alternative literal `0`. -/
def octZero : List Char → Bool
  | [a] => a == '0'
  | _ => false

/-- Octet alternative `[0-9]`. -/
def octDigit : List Char → Bool
  | [a] => charRange 48 57 a
  | _ => false

/-- First octet of `ipv4Addr`:
`(25[0-5]|2[0-4][0-9]|[0-1][0-9]{2}|[1-9][0-9]|[1-9])` (main.go line 133). -/
def octetFirst (s : List Char) : Bool :=
  oct25x s || oct2xx s || oct01xx s || octTens s || octOnes s

/-- Second and third octets of `ipv4Addr`:
`(25[0-5]|2[0-4][0-9]|[0-1][0-9]{2}|[1-9][0-9]|[1-9]|0)` (main.go line 133). -/
def octetMid (s : List Char) : Bool := octetFirst s || octZero s

/-- Fourth octet of `ipv4Addr`:
`(25[0-5]|2[0-4][0-9]|[0-1][0-9]{2}|[1-9][0-9]|[0-9])` (main.go line 133). -/
def octetLast (s : List Char) : Bool :=
  oct25x s || oct2xx s || oct01xx s || octTens s || octDigit s

/-- The literal `\.` separator. -/
def litDot : List Char → Bool
  | [a] => a == '.'
  | _ => false

/-- Language concatenation of two full-string matchers. -/
def catMatch (p q : List Char → Bool) (s : List Char) : Bool :=
  (List.range (s.length + 1)).any (fun i => p (s.take i) && q (s.drop i))

/-- Full-string matcher for the `ipv4Addr` pattern: four octet
alternations separated by literal dots (main.go line 133). -/
def ipv4Match (s : List Char) : Bool :=
  catMatch octetFirst (catMatch litDot (catMatch octetMid (catMatch litDot
    (catMatch octetMid (catMatch litDot octetLast))))) s

/-- Numeric value of a decimal digit string. -/
def decVal (s : List Char) : Nat := s.foldl (fun n c => n * 10 + (c.toNat - 48)) 0

/-- A non-empty decimal digit string whose value is at most 255 — the set
of strings the claim says each octet alternation matches exactly. -/
def decStr255 (s : List Char) : Bool :=
  !s.isEmpty && s.all (charRange 48 57) && decide (decVal s ≤ 255)

/-- Zero-padded three-digit decimal form of a value below 1000. -/
def pad3 (n : Nat) : List Char :=
  [Char.ofNat (48 + n / 100), Char.ofNat (48 + n / 10 % 10), Char.ofNat (48 + n % 10)]

theorem allTlds_sorted (tlds pseudo : List String) :
    List.Sorted goLe (allTlds tlds pseudo) :=
  sortStrings_sorted (tlds ++ pseudo)

theorem tldEntries_pairwise (tlds pseudo : List String) :
    List.Pairwise (fun a b => goLe b a) (tldEntries tlds pseudo) :=
  List.pairwise_reverse.mpr (allTlds_sorted tlds pseudo)

theorem tldList_congr (A B A' B' : List String)
    (h : ∀ x, x ∈ A ++ B ↔ x ∈ A' ++ B') : tldList A B = tldList A' B' := by
  have hperm : (A ++ B).dedup.Perm (A' ++ B').dedup :=
    (List.perm_ext_iff_of_nodup (List.nodup_dedup (A ++ B))
      (List.nodup_dedup (A' ++ B'))).mpr
        (fun a => by rw [List.mem_dedup, List.mem_dedup]; exact h a)
  exact List.eq_of_perm_of_sorted
    ((sortStrings_perm ((A ++ B).dedup)).trans
      (hperm.trans (sortStrings_perm ((A' ++ B').dedup)).symm))
    (tldList_sorted A B) (tldList_sorted A' B')

set_option maxRecDepth 40000 in
theorem allLit_lt_concat (tlds pseudo : List String) :
    (writeRegexOutputs tlds pseudo).all.length <
      ("(" ++ (writeRegexOutputs tlds pseudo).webURL ++ "|" ++
        (writeRegexOutputs tlds pseudo).email ++ ")").length := by
  have h30 : allLiteral.length = 30 := by decide
  have hW : 100 ≤ webURLHead.length := by decide
  simp only [writeRegexOutputs, assembleFrom, webURLOf, emailOf,
    String.length_append, h30]
  omega

/-- Claim C10: the byte-buffer implementation `reverseJoin(a, sep)`
returns the same string as the naive definition, the elements of `a` in
reverse order joined by `sep`. -/
theorem claim10_reverseJoin_refines_naive :
    ∀ (a : List String) (sep : String), reverseJoin a sep = joinSep sep a.reverse :=
  fun a sep => reverseJoin_eq_naive a sep

/-- Claim C4: the TLD alternation sub-pattern is the TLD entries joined by
`|`, inside a `(?i)( ... )` group that is switched back off with `(?-i)`
immediately after the group closes. -/
theorem claim4_gtld_case_insensitive_group :
    ∀ tlds pseudo : List String,
      gtldOf (allTlds tlds pseudo)
        = "(?i)(" ++ joinSep "|" (allTlds tlds pseudo).reverse ++ ")(?-i)" := by
  intro tlds pseudo
  unfold gtldOf
  rw [reverseJoin_eq_naive]

/-- Claim C2: in the alternation built over the sorted combined TLD list,
the entries appear in reverse sorted order, and whenever the entry at
position `i` is a proper prefix of the entry at position `j`, the longer
entry appears strictly earlier (`j < i`). -/
theorem claim2_longer_tld_first :
    ∀ tlds pseudo : List String,
      gtldOf (allTlds tlds pseudo)
          = "(?i)(" ++ joinSep "|" (tldEntries tlds pseudo) ++ ")(?-i)" ∧
      ∀ (i j : Nat) (hi : i < (tldEntries tlds pseudo).length)
        (hj : j < (tldEntries tlds pseudo).length),
        ((tldEntries tlds pseudo).get ⟨i, hi⟩).data <+:
            ((tldEntries tlds pseudo).get ⟨j, hj⟩).data →
        (tldEntries tlds pseudo).get ⟨i, hi⟩ ≠ (tldEntries tlds pseudo).get ⟨j, hj⟩ →
        j < i := by
  intro tlds pseudo
  constructor
  · unfold gtldOf tldEntries
    rw [reverseJoin_eq_naive]
  · intro i j hi hj hpre hne
    have hlt : goLt ((tldEntries tlds pseudo).get ⟨i, hi⟩)
        ((tldEntries tlds pseudo).get ⟨j, hj⟩) := data_lt_of_pre hpre hne
    by_contra hcon
    have hij : i ≤ j := by omega
    rcases Nat.lt_or_ge i j with hlt2 | hge
    · have hle : goLe ((tldEntries tlds pseudo).get ⟨j, hj⟩)
          ((tldEntries tlds pseudo).get ⟨i, hi⟩) :=
        List.pairwise_iff_get.mp (tldEntries_pairwise tlds pseudo) ⟨i, hi⟩ ⟨j, hj⟩ hlt2
      exact absurd (lt_of_lt_of_le hlt hle)
        (lt_irrefl ((tldEntries tlds pseudo).get ⟨i, hi⟩).data)
    · have hij' : i = j := by omega
      subst hij'
      exact hne rfl

theorem claim2_witness : tldEntries ["com", "commbank"] [] = ["commbank", "com"] ∧ 0 < 1 :=
  ⟨by decide,
    (claim2_longer_tld_first ["com", "commbank"] []).2 1 0 (by decide) (by decide)
      (by decide) (by decide)⟩

/-- Claim C5: in the aggregator output, position order coincides with
strict byte-wise lexicographic order: `i < j` iff the entry at `i` is
lexicographically smaller than the entry at `j`. -/
theorem claim5_sorted_strict :
    ∀ (A B : List String) (i j : Nat) (hi : i < (tldList A B).length)
      (hj : j < (tldList A B).length),
      i < j ↔ goLt ((tldList A B).get ⟨i, hi⟩) ((tldList A B).get ⟨j, hj⟩) := by
  intro A B i j hi hj
  have pw : List.Pairwise goLt (tldList A B) := by
    refine List.Pairwise.imp ?_ ((tldList_sorted A B).and (tldList_nodup A B))
    intro a b hab
    exact lt_of_le_of_ne hab.1 (fun hd => hab.2 (String.ext hd))
  constructor
  · intro hij
    exact List.pairwise_iff_get.mp pw ⟨i, hi⟩ ⟨j, hj⟩ hij
  · intro hlt
    by_contra hcon
    rcases Nat.lt_or_ge j i with hji | hge
    · have := List.pairwise_iff_get.mp pw ⟨j, hj⟩ ⟨i, hi⟩ hji
      exact absurd (lt_trans hlt this) (lt_irrefl ((tldList A B).get ⟨i, hi⟩).data)
    · have hij' : i = j := by omega
      subst hij'
      exact absurd hlt (lt_irrefl ((tldList A B).get ⟨i, hi⟩).data)

theorem claim5_witness : tldList ["b", "a"] ["c"] = ["a", "b", "c"] ∧ 0 < 1 :=
  ⟨by decide,
    (claim5_sorted_strict ["b", "a"] ["c"] 0 1 (by decide) (by decide)).mpr (by decide)⟩

/-- Claim C6: aggregation is order-independent — swapping the two source
sets, or re-enumerating a source in any order, yields the identical
sorted sequence. -/
theorem claim6_order_independent :
    (∀ A B P : List String, aggregatedTlds A B P = aggregatedTlds B A P) ∧
    (∀ A A' B P : List String, A.Perm A' → aggregatedTlds A B P = aggregatedTlds A' B P) := by
  constructor
  · intro A B P
    unfold aggregatedTlds
    rw [tldList_congr A B B A (fun x => by simp [List.mem_append, or_comm])]
  · intro A A' B P hperm
    unfold aggregatedTlds
    rw [tldList_congr A B A' B (fun x => by simp [List.mem_append, hperm.mem_iff])]

theorem claim6_witness :
    aggregatedTlds ["a", "b"] ["c"] ["d"] = aggregatedTlds ["b", "a"] ["c"] ["d"] :=
  claim6_order_independent.2 ["a", "b"] ["b", "a"] ["c"] ["d"] (by decide)

/-- Claim C3, counterexample: when a pseudo-TLD repeats a source TLD, the
combined list fed to the assembler contains it twice — `writeRegex`
appends the pseudo-TLDs without deduplication. -/
theorem claim3_counterexample : ¬ (aggregatedTlds ["onion"] [] ["onion"]).Nodup := by
  decide

/-- Claim C3, amended: the combined sequence is duplicate-free provided
the pseudo-TLD list is itself duplicate-free and disjoint from the two
source sets. -/
theorem claim3_amended :
    ∀ A B P : List String, P.Nodup → (∀ x ∈ P, x ∉ A ∧ x ∉ B) →
      (aggregatedTlds A B P).Nodup := by
  intro A B P hP hdisj
  unfold aggregatedTlds allTlds
  refine (sortStrings_perm (tldList A B ++ P)).nodup_iff.mpr ?_
  refine List.Nodup.append (tldList_nodup A B) hP ?_
  intro x hx hxP
  rcases List.mem_append.mp (mem_tldList.mp hx) with h | h
  · exact (hdisj x hxP).1 h
  · exact (hdisj x hxP).2 h

theorem claim3_witness : (aggregatedTlds ["com"] ["net"] ["onion"]).Nodup :=
  claim3_amended ["com"] ["net"] ["onion"] (by decide) (by decide)

set_option maxRecDepth 40000 in
/-- Claim C9: the assembler is a total function — it produces the three
non-empty pattern strings for every input sequence, and on the empty
sequence the joined TLD alternation inside the group is the empty string. -/
theorem claim9_assembler_total :
    (∀ ts : List String,
      0 < (assembleFrom ts).webURL.length ∧ 0 < (assembleFrom ts).email.length ∧
        0 < (assembleFrom ts).all.length) ∧
    reverseJoin [] "|" = "" ∧
    gtldOf [] = "(?i)(" ++ "" ++ ")(?-i)" := by
  refine ⟨?_, rfl, rfl⟩
  intro ts
  have hW : 100 ≤ webURLHead.length := by decide
  have hA : allLiteral.length = 30 := by decide
  have hD : ∀ l : List String, 0 < (domainNameOf l).length := by
    intro l
    simp only [domainNameOf, hostNameOf, String.length_append]
    have : ("(" : String).length = 1 := by decide
    omega
  refine ⟨?_, ?_, ?_⟩
  · simp only [assembleFrom, webURLOf, String.length_append]
    omega
  · simp only [assembleFrom, emailOf, String.length_append]
    have := hD ts
    omega
  · simp only [assembleFrom]
    omega

/-- Claim C1, counterexample: at the concrete input `["com"]`, the string
handed to the sink as `All` is not the concatenation
`"(" ++ WebURL ++ "|" ++ Email ++ ")"`. -/
theorem claim1_counterexample :
    (writeRegexOutputs ["com"] []).all ≠
      "(" ++ (writeRegexOutputs ["com"] []).webURL ++ "|" ++
        (writeRegexOutputs ["com"] []).email ++ ")" :=
  fun h => absurd (congrArg String.length h) (Nat.ne_of_lt (allLit_lt_concat ["com"] []))

/-- Claim C1, amended: the `All` value handed to the sink is the fixed
30-character Go source expression `(\x60 + webURL + \x60|\x60 + email + \x60)`,
which names the emitted constants; it is strictly shorter than — hence
never equal to — the direct concatenation of the two pattern strings. -/
theorem claim1_all_is_source_text :
    ∀ tlds pseudo : List String,
      (writeRegexOutputs tlds pseudo).all = allLiteral ∧
      (writeRegexOutputs tlds pseudo).all.length <
        ("(" ++ (writeRegexOutputs tlds pseudo).webURL ++ "|" ++
          (writeRegexOutputs tlds pseudo).email ++ ")").length :=
  fun tlds pseudo => ⟨rfl, allLit_lt_concat tlds pseudo⟩

theorem iri_sub_label (c : Char) (h : iriCharCls c = true) : labelCls c = true := by
  simp [labelCls, h]

/-- Claim C7, counterexample: the label `"9"` is matched by the `iri`
sub-pattern (its first class is `iriChar`, letters *plus digits*) but is
not in the language the claim describes, whose first character must come
from the letter-class. -/
theorem claim7_counterexample : iriLang ['9'] ∧ ¬ claimIriLang ['9'] := by
  constructor
  · exact ⟨'9', [], rfl, by decide, Or.inl rfl⟩
  · rintro ⟨c, mid, opt, heq, hlet, -, -, -⟩
    injection heq with h1 h2
    subst h1
    exact absurd hlet (by decide)

/-- Claim C7, amended: the `iri` sub-pattern matches exactly the strings
of 1 to 63 label-class characters (letters, digits, hyphen) whose first
and last characters are from the hyphen-free class `iriChar` (letters or
digits — not only letters). -/
theorem claim7_label_shape :
    ∀ s : List Char,
      iriLang s ↔ (1 ≤ s.length ∧ s.length ≤ 63 ∧ (∀ c ∈ s, labelCls c = true) ∧
        iriCharCls (s.headD '-') = true ∧ iriCharCls (s.getLastD '-') = true) := by
  intro s
  constructor
  · rintro ⟨c, rest, rfl, hc, hrest⟩
    rcases hrest with rfl | ⟨mid, lastc, rfl, hlen, hmid, hlast⟩
    · refine ⟨by simp, by simp, ?_, by simpa using hc, by simpa using hc⟩
      intro d hd
      rw [List.mem_singleton] at hd
      subst hd
      exact iri_sub_label d hc
    · have hform : c :: (mid ++ [lastc]) = (c :: mid) ++ [lastc] := by simp
      refine ⟨by simp, ?_, ?_, by simpa using hc, ?_⟩
      · simp
        omega
      · intro d hd
        simp at hd
        rcases hd with rfl | hd | rfl
        · exact iri_sub_label d hc
        · exact hmid d hd
        · exact iri_sub_label d hlast
      · rw [hform, List.getLastD_concat]
        exact hlast
  · rintro ⟨h1, h63, hall, hhead, hlast⟩
    cases s with
    | nil => simp at h1
    | cons c rest =>
        refine ⟨c, rest, rfl, by simpa using hhead, ?_⟩
        rcases eq_or_ne rest [] with rfl | hne
        · exact Or.inl rfl
        · right
          have hrw : c :: rest = (c :: rest.dropLast) ++ [rest.getLast hne] := by
            rw [List.cons_append, List.dropLast_append_getLast hne]
          refine ⟨rest.dropLast, rest.getLast hne, ?_, ?_, ?_, ?_⟩
          · have := List.dropLast_append_getLast hne
            exact this.symm
          · have hlr : rest.dropLast.length = rest.length - 1 := List.length_dropLast rest
            have : rest.length + 1 ≤ 63 := by simpa using h63
            omega
          · intro d hd
            exact hall d (List.mem_cons_of_mem c (List.mem_of_mem_dropLast hd))
          · rw [hrw, List.getLastD_concat] at hlast
            exact hlast

theorem octAlt_sound :
    ∀ s, (oct25x s || oct2xx s || oct01xx s || octTens s || octOnes s ||
      octZero s || octDigit s) = true → decStr255 s = true := by
  intro s h
  cases s with
  | nil => simp [oct25x, oct2xx, oct01xx, octTens, octOnes, octZero, octDigit] at h
  | cons a t =>
      cases t with
      | nil =>
          simp [oct25x, oct2xx, oct01xx, octTens, octOnes, octZero, octDigit,
            charRange] at h
          simp [decStr255, decVal, charRange]
          rcases h with (⟨h1, h2⟩ | ha) | ⟨h1, h2⟩
          · omega
          · subst ha
            decide
          · omega
      | cons b t2 =>
          cases t2 with
          | nil =>
              simp [oct25x, oct2xx, oct01xx, octTens, octOnes, octZero, octDigit,
                charRange] at h
              simp [decStr255, decVal, charRange]
              omega
          | cons c t3 =>
              cases t3 with
              | nil =>
                  simp [oct25x, oct2xx, oct01xx, octTens, octOnes, octZero,
                    octDigit, charRange] at h
                  simp [decStr255, decVal, charRange]
                  have h2v : ('2' : Char).toNat = 50 := rfl
                  have h5v : ('5' : Char).toNat = 53 := rfl
                  rcases h with (⟨⟨ha, hb⟩, hc1, hc2⟩ | ⟨⟨ha, hb1, hb2⟩, hc1, hc2⟩) |
                    ⟨⟨⟨ha1, ha2⟩, hb1, hb2⟩, hc1, hc2⟩
                  · subst ha
                    subst hb
                    omega
                  · subst ha
                    omega
                  · omega
              | cons d t4 =>
                  simp [oct25x, oct2xx, oct01xx, octTens, octOnes, octZero,
                    octDigit] at h

set_option maxRecDepth 200000 in
/-- Claim C8, amended: every string matched by an octet alternation of
`ipv4Addr` is a decimal digit string of value at most 255, and every
value 0-255 is matched by each octet alternation in zero-padded
three-digit form; hence `"256.1.1.1"` is rejected and
`"255.255.255.255"` accepted.  (Not every in-range decimal string
matches: the first octet lacks a bare `0` alternative.) -/
theorem claim8_octets_bounded :
    (∀ s, octetFirst s = true → decStr255 s = true) ∧
    (∀ s, octetMid s = true → decStr255 s = true) ∧
    (∀ s, octetLast s = true → decStr255 s = true) ∧
    (∀ n, n < 256 → octetFirst (pad3 n) = true ∧ octetMid (pad3 n) = true ∧
      octetLast (pad3 n) = true ∧ decVal (pad3 n) = n) ∧
    ipv4Match "255.255.255.255".data = true ∧
    ipv4Match "256.1.1.1".data = false := by
  refine ⟨?_, ?_, ?_, by decide, by decide, by decide⟩
  · intro s h
    apply octAlt_sound s
    simp only [octetFirst, Bool.or_eq_true] at h
    simp only [Bool.or_eq_true]
    tauto
  · intro s h
    apply octAlt_sound s
    simp only [octetMid, octetFirst, Bool.or_eq_true] at h
    simp only [Bool.or_eq_true]
    tauto
  · intro s h
    apply octAlt_sound s
    simp only [octetLast, Bool.or_eq_true] at h
    simp only [Bool.or_eq_true]
    tauto

theorem claim8_witness : decStr255 "250".data = true ∧ decVal (pad3 77) = 77 :=
  ⟨claim8_octets_bounded.1 "250".data (by decide),
    (claim8_octets_bounded.2.2.2.1 77 (by decide)).2.2.2⟩

/-- Claim C8, counterexample: the single digit `"0"` is a decimal string
whose value lies in 0-255, yet the first octet alternation rejects it —
the first octet of `ipv4Addr` has no bare `0` alternative. -/
theorem claim8_counterexample : octetFirst ['0'] = false ∧ decStr255 ['0'] = true := by
  decide

end Regexgen
